import Mathlib

/-!
Verification of the Composeon icon indexing and categorization pipeline.

Program strings are modelled as `List Char` (the `.data` of a `String`);
JavaScript `includes` / `endsWith` become `List.isInfixOf` / `List.isSuffixOf`,
and JavaScript objects / `Map`s become insertion-ordered association lists.
-/

set_option maxRecDepth 4000

/-- Map an identifier to lowercase, modelling JavaScript `toLowerCase` on
the ASCII identifiers used by the program. -/
def lowerL (s : List Char) : List Char := s.map Char.toLower

/-- The characters removed by JavaScript `String.prototype.trim`
(ECMAScript WhiteSpace and LineTerminator code points). -/
def jsWhitespaceChars : List Char :=
  [' ', '\t', '\n', '\r', Char.ofNat 11, Char.ofNat 12, Char.ofNat 160,
   Char.ofNat 65279, Char.ofNat 8232, Char.ofNat 8233, Char.ofNat 5760,
   Char.ofNat 8192, Char.ofNat 8193, Char.ofNat 8194, Char.ofNat 8195,
   Char.ofNat 8196, Char.ofNat 8197, Char.ofNat 8198, Char.ofNat 8199,
   Char.ofNat 8200, Char.ofNat 8201, Char.ofNat 8202, Char.ofNat 8239,
   Char.ofNat 8287, Char.ofNat 12288]

/-- Test whether a character is JavaScript whitespace. -/
def isJsWhitespace (c : Char) : Bool := jsWhitespaceChars.contains c

/-- Model of JavaScript `String.prototype.trim`: strip leading and trailing
whitespace. -/
def jsTrim (s : List Char) : List Char :=
  ((s.dropWhile isJsWhitespace).reverse.dropWhile isJsWhitespace).reverse

/-- The scanner's category keyword table (`this.categoryKeywords` in the
icon scanner), in declaration order. -/
def categoryKeywords : List (List Char × List (List Char)) :=
  [ (("ai").data,
     [("openai").data, ("claude").data, ("anthropic").data, ("gemini").data,
      ("chatgpt").data, ("gpt").data, ("midjourney").data, ("stability").data,
      ("huggingface").data, ("deepseek").data, ("cohere").data,
      ("replicate").data, ("runway").data, ("perplexity").data,
      ("character").data, ("ai21").data, ("ai2").data, ("ai302").data,
      ("ai360").data, ("aihubmix").data, ("aimass").data, ("aionlabs").data,
      ("aistudio").data, ("akashchat").data, ("alephalpha").data,
      ("baai").data, ("chatglm").data, ("deepai").data, ("deepcogito").data,
      ("deepinfra").data, ("deepmind").data, ("doubao").data,
      ("dreammachine").data, ("elevenx").data, ("essentialai").data,
      ("glmv").data, ("goose").data]),
    (("cloud").data,
     [("aws").data, ("azure").data, ("google").data, ("googlecloud").data,
      ("gcp").data, ("digitalocean").data, ("cloudflare").data,
      ("heroku").data, ("netlify").data, ("vercel").data, ("railway").data,
      ("render").data, ("supabase").data, ("planetscale").data,
      ("alibaba").data, ("alibabacloud").data, ("baidu").data,
      ("baiducloud").data, ("tencent").data, ("huawei").data,
      ("oracle").data, ("ibm").data, ("linode").data, ("vultr").data,
      ("hetzner").data, ("baseten").data, ("crusoe").data,
      ("anyscale").data, ("centml").data, ("fireworks").data,
      ("featherless").data, ("friendli").data]),
    (("dev").data,
     [("github").data, ("gitlab").data, ("bitbucket").data, ("vscode").data,
      ("cursor").data, ("jetbrains").data, ("sublime").data, ("atom").data,
      ("vim").data, ("docker").data, ("kubernetes").data, ("jenkins").data,
      ("circleci").data, ("travis").data, ("copilot").data,
      ("githubcopilot").data, ("cline").data, ("codeflicker").data,
      ("codegeex").data, ("commanda").data, ("copilotkit").data,
      ("greptile").data, ("colab").data, ("gradio").data]),
    (("framework").data,
     [("react").data, ("vue").data, ("angular").data, ("svelte").data,
      ("nextjs").data, ("nuxt").data, ("gatsby").data, ("nodejs").data,
      ("python").data, ("javascript").data, ("typescript").data,
      ("java").data, ("golang").data, ("rust").data, ("php").data,
      ("ruby").data, ("swift").data, ("kotlin").data, ("dart").data,
      ("flutter").data, ("unity").data, ("unreal").data]),
    (("design").data,
     [("figma").data, ("adobe").data, ("sketch").data, ("canva").data,
      ("framer").data, ("invision").data, ("principle").data,
      ("dribbble").data, ("behance").data, ("unsplash").data,
      ("pexels").data, ("clipdrop").data, ("miro").data,
      ("whimsical").data, ("lucidchart").data, ("webflow").data]),
    (("social").data,
     [("linkedin").data, ("twitter").data, ("facebook").data,
      ("instagram").data, ("youtube").data, ("tiktok").data,
      ("discord").data, ("slack").data, ("telegram").data,
      ("whatsapp").data, ("zoom").data, ("teams").data, ("meet").data,
      ("webex").data, ("skype").data, ("twitch").data, ("spotify").data,
      ("netflix").data]),
    (("database").data,
     [("mongodb").data, ("postgresql").data, ("mysql").data,
      ("redis").data, ("elasticsearch").data, ("cassandra").data,
      ("neo4j").data, ("sqlite").data, ("snowflake").data,
      ("databricks").data, ("clickhouse").data, ("cockroachdb").data]),
    (("browser").data,
     [("chrome").data, ("firefox").data, ("safari").data, ("edge").data,
      ("opera").data, ("brave").data]),
    (("crypto").data,
     [("bitcoin").data, ("ethereum").data, ("binance").data,
      ("coinbase").data, ("metamask").data]),
    (("ecommerce").data,
     [("shopify").data, ("stripe").data, ("paypal").data, ("square").data,
      ("klarna").data, ("razorpay").data, ("adyen").data]),
    (("productivity").data,
     [("notion").data, ("obsidian").data, ("todoist").data,
      ("trello").data, ("asana").data, ("monday").data, ("clickup").data,
      ("airtable").data, ("sheets").data, ("excel").data, ("word").data,
      ("powerpoint").data]),
    (("security").data,
     [("nordvpn").data, ("expressvpn").data, ("1password").data,
      ("bitwarden").data, ("lastpass").data]) ]

/-- Substring test, modelling JavaScript `String.prototype.includes`:
`inclL p s` is true when `p` occurs contiguously inside `s`. -/
def inclL (p s : List Char) : Bool := decide (p <:+: s)

/-- The scanner's symmetric keyword test on the lowercased base name:
`nameLower.includes(keyword.toLowerCase()) || keyword.toLowerCase().includes(nameLower)`. -/
def kwMatch (nl k : List Char) : Bool :=
  inclL (lowerL k) nl || inclL nl (lowerL k)

/-- The scanner's category loop: return the first category whose keyword
list has a match against the lowercased name, else fall through. -/
def categorizeAux (nl : List Char) : List (List Char × List (List Char)) → List Char
  | [] => ("other").data
  | p :: rest => if p.2.any (fun k => kwMatch nl k) then p.1 else categorizeAux nl rest

/-- Model of the scanner's `categorizeIcon(name)`. -/
def categorizeIcon (name : List Char) : List Char :=
  categorizeAux (lowerL name) categoryKeywords

/-- Drop the last `n` characters, modelling removal of a known suffix. -/
def dropSuffixN (s : List Char) (n : Nat) : List Char := s.take (s.length - n)

/-- Model of the scanner's `getBaseName(fileName)`: it strips a single
trailing `-color`, `-text`, `-brand` or `-mono` token via an anchored
regex replace, written out here as explicit end-of-string checks (the four
suffixes are mutually exclusive at the end of a string). -/
def getBaseName (s : List Char) : List Char :=
  if (("-color").data).isSuffixOf s then dropSuffixN s 6
  else if (("-text").data).isSuffixOf s then dropSuffixN s 5
  else if (("-brand").data).isSuffixOf s then dropSuffixN s 6
  else if (("-mono").data).isSuffixOf s then dropSuffixN s 5
  else s

/-- Model of the scanner's `getVariation(fileName)`: an `endsWith` chain. -/
def getVariation (s : List Char) : List Char :=
  if (("-color").data).isSuffixOf s then ("color").data
  else if (("-text").data).isSuffixOf s then ("text").data
  else if (("-brand").data).isSuffixOf s then ("brand").data
  else if (("-mono").data).isSuffixOf s then ("mono").data
  else ("default").data

/-- First-match lookup in an association list, modelling a JavaScript
object-literal key lookup. -/
def lookupA : List (List Char × List Char) → List Char → Option (List Char)
  | [], _ => none
  | p :: rest, k => if p.1 = k then some p.2 else lookupA rest k

/-- The scanner's `specialNames` display-name table. -/
def specialNames : List (List Char × List Char) :=
  [ (("openai").data, ("OpenAI").data), (("chatgpt").data, ("ChatGPT").data),
    (("github").data, ("GitHub").data), (("gitlab").data, ("GitLab").data),
    (("vscode").data, ("VS Code").data), (("nodejs").data, ("Node.js").data),
    (("nextjs").data, ("Next.js").data),
    (("typescript").data, ("TypeScript").data),
    (("javascript").data, ("JavaScript").data),
    (("mongodb").data, ("MongoDB").data),
    (("postgresql").data, ("PostgreSQL").data),
    (("mysql").data, ("MySQL").data), (("aws").data, ("AWS").data),
    (("gcp").data, ("Google Cloud").data), (("ui").data, ("UI").data),
    (("api").data, ("API").data), (("ai").data, ("AI").data),
    (("ml").data, ("ML").data), (("ar").data, ("AR").data),
    (("vr").data, ("VR").data), (("iot").data, ("IoT").data),
    (("sdk").data, ("SDK").data) ]

/-- Title-case one word: first character uppercased, the rest lowercased
(`word.charAt(0).toUpperCase() + word.slice(1).toLowerCase()`). -/
def capitalizeWord : List Char → List Char
  | [] => []
  | c :: rest => Char.toUpper c :: rest.map Char.toLower

/-- Model of the scanner's `formatDisplayName(name)`: special-case table
lookup on the lowercased name, else replace `-`/`_` by spaces, insert a
space before each ASCII uppercase letter, split on single spaces,
title-case each word, rejoin and trim. -/
def formatDisplayName (name : List Char) : List Char :=
  match lookupA specialNames (lowerL name) with
  | some d => d
  | none =>
      let s1 := name.map (fun c => if c = '-' ∨ c = '_' then ' ' else c)
      let s2 := s1.flatMap (fun c => if c.isUpper then [' ', c] else [c])
      let words := List.splitOn ' ' s2
      jsTrim (List.intercalate [' '] (words.map capitalizeWord))

/-- The scanner's `alternatives` tag table. -/
def altTags : List (List Char × List (List Char)) :=
  [ (("github").data, [("git").data, ("version control").data]),
    (("docker").data, [("container").data, ("virtualization").data]),
    (("kubernetes").data, [("k8s").data, ("orchestration").data]),
    (("postgresql").data, [("postgres").data, ("sql").data]),
    (("mongodb").data, [("mongo").data, ("nosql").data]),
    (("javascript").data, [("js").data, ("node").data]),
    (("typescript").data, [("ts").data]),
    (("react").data, [("reactjs").data]),
    (("vue").data, [("vuejs").data]),
    (("angular").data, [("ng").data]) ]

/-- First-match lookup in the tag alternatives table. -/
def lookupT : List (List Char × List (List Char)) → List Char → Option (List (List Char))
  | [], _ => none
  | p :: rest, k => if p.1 = k then some p.2 else lookupT rest k

/-- Model of the scanner's `generateTags(name)`: the name, its category,
and any fixed alternatives for the name. -/
def generateTags (name : List Char) : List (List Char) :=
  let base := [name, categorizeIcon name]
  match lookupT altTags name with
  | some extra => base ++ extra
  | none => base

/-- A per-file icon record as produced inside the scanner's
`scanIcons` map step, one per SVG file. -/
structure SIcon where
  name : List Char
  fileName : List Char
  variation : List Char
  displayName : List Char
  category : List Char
  path : List Char
  tags : List (List Char)
deriving DecidableEq, Repr

/-- A grouped catalog entry: the first file's record spread together with
the accumulated `variations` list and `paths` map. -/
structure Entry where
  name : List Char
  fileName : List Char
  variation : List Char
  displayName : List Char
  category : List Char
  path : List Char
  tags : List (List Char)
  variations : List (List Char)
  paths : List (List Char × List Char)
deriving DecidableEq, Repr

/-- Update-or-append on an insertion-ordered association list, modelling a
JavaScript object property write `paths[variation] = path`. -/
def upsert : List (List Char × List Char) → List Char → List Char → List (List Char × List Char)
  | [], k, v => [(k, v)]
  | p :: rest, k, v => if p.1 = k then (k, v) :: rest else p :: upsert rest k v

/-- The entry created for the first file of a base name:
`{ ...icon, variations: [icon.variation], paths: { [icon.variation]: icon.path } }`. -/
def mkEntry (i : SIcon) : Entry :=
  { name := i.name, fileName := i.fileName, variation := i.variation,
    displayName := i.displayName, category := i.category, path := i.path,
    tags := i.tags, variations := [i.variation],
    paths := [(i.variation, i.path)] }

/-- Folding one more file of an already-seen base name into its entry:
push the variation and write the path. -/
def bump (e : Entry) (i : SIcon) : Entry :=
  { e with variations := e.variations ++ [i.variation],
           paths := upsert e.paths i.variation i.path }

/-- One step of the scanner's grouping loop over the `groupedIcons` map:
bump the existing entry for the icon's name, else append a new entry
(JavaScript `Map` preserves insertion order). -/
def addIcon : List Entry → SIcon → List Entry
  | [], i => [mkEntry i]
  | e :: rest, i => if e.name = i.name then bump e i :: rest else e :: addIcon rest i

/-- The scanner's grouping of per-file icons by base name. -/
def groupIcons (icons : List SIcon) : List Entry := icons.foldl addIcon []

/-- The relative path prefix the scanner stores for every icon file. -/
def iconPathPrefix : List Char := ("lobe-icons/packages/static-svg/icons/").data

/-- Stem of a `.svg` filename, modelling `path.parse(file).name` for names
ending in `.svg`: drop the 4-character extension, except that the bare
dotfile `.svg` keeps its full name. -/
def stemOf (f : List Char) : List Char :=
  if f.length ≤ 4 then f else f.take (f.length - 4)

/-- The per-file record built in the scanner's `scanIcons` map step. -/
def mkIcon (f : List Char) : SIcon :=
  let nm := stemOf f
  let base := getBaseName nm
  { name := base, fileName := f, variation := getVariation nm,
    displayName := formatDisplayName base, category := categorizeIcon base,
    path := iconPathPrefix ++ f, tags := generateTags base }

/-- Base name derived from a `.svg` filename. -/
def baseNameOfFile (f : List Char) : List Char := getBaseName (stemOf f)

/-- Variation derived from a `.svg` filename. -/
def variationOfFile (f : List Char) : List Char := getVariation (stemOf f)

/-- Stored path derived from a `.svg` filename. -/
def pathOfFile (f : List Char) : List Char := iconPathPrefix ++ f

/-- The catalog the scanner builds from a list of `.svg` filenames:
per-file parse then grouping by base name (the sort that follows in
`scanIcons` only permutes entries and is modelled separately). -/
def buildCatalog (files : List (List Char)) : List Entry :=
  groupIcons (files.map mkIcon)

/-- Filter a directory listing to `.svg` files. -/
def svgOnly (files : List (List Char)) : List (List Char) :=
  files.filter (fun f => ((".svg").data).isSuffixOf f)

/-- The scanner's pipeline from a directory listing to the grouped catalog. -/
def scanCatalog (files : List (List Char)) : List Entry :=
  buildCatalog (svgOnly files)

/-- First entry with a given name in a catalog. -/
def findE (n : List Char) : List Entry → Option Entry
  | [] => none
  | e :: rest => if e.name = n then some e else findE n rest

/-- Path map accumulated over a list of files sharing one base name. -/
def pathsFold (files : List (List Char)) : List (List Char × List Char) :=
  files.foldl (fun acc f => upsert acc (variationOfFile f) (pathOfFile f)) []

/-- An icon record of the MCP server (`mcp-server.js`); these records
carry no tags and no search text. The absolute filesystem `path` field is
omitted as it depends only on the runtime installation directory. -/
structure MIcon where
  name : List Char
  category : List Char
  filename : List Char
  displayName : List Char
  variations : List (List Char)
deriving DecidableEq, Repr

/-- The MCP server's category keyword table (`this.categories`), in
declaration order. -/
def mcpCategories : List (List Char × List (List Char)) :=
  [ (("ai").data,
     [("openai").data, ("claude").data, ("anthropic").data, ("gemini").data,
      ("chatglm").data, ("deepseek").data, ("cohere").data,
      ("mistral").data]),
    (("cloud").data,
     [("aws").data, ("azure").data, ("google").data, ("googlecloud").data,
      ("microsoft").data, ("alibaba").data, ("alibabacloud").data]),
    (("database").data,
     [("mongodb").data, ("postgresql").data, ("mysql").data,
      ("redis").data, ("elasticsearch").data, ("cassandra").data]),
    (("design").data,
     [("figma").data, ("adobe").data, ("sketch").data, ("canva").data,
      ("framer").data, ("principle").data]),
    (("dev").data,
     [("github").data, ("gitlab").data, ("vscode").data, ("cursor").data,
      ("docker").data, ("kubernetes").data]),
    (("social").data,
     [("linkedin").data, ("twitter").data, ("facebook").data,
      ("instagram").data, ("discord").data, ("slack").data]) ]

/-- The MCP server's variant stripping: an anchored regex removing one
trailing `-color`, `-text` or `-brand` token (no `mono` here). -/
def mcpStripVariant (s : List Char) : List Char :=
  if (("-color").data).isSuffixOf s then dropSuffixN s 6
  else if (("-text").data).isSuffixOf s then dropSuffixN s 5
  else if (("-brand").data).isSuffixOf s then dropSuffixN s 6
  else s

/-- The MCP server's category loop body: first category having a keyword
that is a substring of the stripped name (one-directional, not lowercased). -/
def mcpCatAux (base : List Char) : List (List Char × List (List Char)) → List Char
  | [] => ("other").data
  | p :: rest => if p.2.any (fun k => inclL k base) then p.1 else mcpCatAux base rest

/-- Model of the MCP server's `categorizeIcon(name)`. -/
def mcpCategorize (name : List Char) : List Char :=
  mcpCatAux (mcpStripVariant name) mcpCategories

/-- The MCP server's `specialNames` display-name table. -/
def mcpSpecialNames : List (List Char × List Char) :=
  [ (("openai").data, ("OpenAI").data), (("chatgpt").data, ("ChatGPT").data),
    (("github").data, ("GitHub").data), (("vscode").data, ("VS Code").data),
    (("nodejs").data, ("Node.js").data), (("nextjs").data, ("Next.js").data),
    (("typescript").data, ("TypeScript").data),
    (("javascript").data, ("JavaScript").data) ]

/-- Uppercase the first character only, modelling
`baseName.charAt(0).toUpperCase() + baseName.slice(1)`. -/
def capitalizeFirst : List Char → List Char
  | [] => []
  | c :: rest => Char.toUpper c :: rest

/-- Model of the MCP server's `formatDisplayName(name)`. -/
def mcpFormatDisplayName (name : List Char) : List Char :=
  let base := mcpStripVariant name
  match lookupA mcpSpecialNames base with
  | some d => d
  | none => capitalizeFirst base

/-- Model of the MCP server's `getVariations(baseName, allFiles)`: always
`default`, plus each of `color`, `text`, `brand` whose file exists in the
listing. -/
def getVariations (baseName : List Char) (allFiles : List (List Char)) : List (List Char) :=
  [("color").data, ("text").data, ("brand").data].foldl
    (fun acc v =>
      if (baseName ++ [Char.ofNat 45] ++ v ++ (".svg").data) ∈ allFiles
      then acc ++ [v] else acc)
    [("default").data]

/-- The MCP server's hardcoded fallback icon names. -/
def fallbackNames : List (List Char) :=
  [("openai").data, ("claude").data, ("github").data, ("figma").data,
   ("google").data, ("microsoft").data, ("aws").data, ("azure").data,
   ("docker").data, ("react").data, ("nodejs").data, ("python").data]

/-- Model of the MCP server's `getFallbackIcons()`. -/
def getFallbackIcons : List MIcon :=
  fallbackNames.map (fun name =>
    { name := name, category := mcpCategorize name,
      filename := name ++ (".svg").data,
      displayName := mcpFormatDisplayName name,
      variations := [("default").data] })

/-- The per-file icon record built in the MCP server's `loadIcons`. -/
def mcpMkIcon (svgs : List (List Char)) (file : List Char) : MIcon :=
  let name := stemOf file
  { name := name, category := mcpCategorize name, filename := file,
    displayName := mcpFormatDisplayName name,
    variations := getVariations name svgs }

/-- Key lookup in the MCP server's `uniqueIcons` map (entries are keyed
by their `name`, which holds the base name once stored). -/
def findM (n : List Char) : List MIcon → Option MIcon
  | [] => none
  | x :: rest => if x.name = n then some x else findM n rest

/-- `Map.set` on the `uniqueIcons` map: replace in place or append. -/
def upsertM : List MIcon → List Char → MIcon → List MIcon
  | [], _, v => [v]
  | x :: rest, k, v => if x.name = k then v :: rest else x :: upsertM rest k v

/-- One step of the MCP server's deduplication loop: store under the base
name when the key is new or when the current icon is the base version. -/
def mcpDedupStep (svgs : List (List Char)) (acc : List MIcon) (icon : MIcon) : List MIcon :=
  let base := mcpStripVariant icon.name
  if (findM base acc).isNone ∨ icon.name = base then
    upsertM acc base
      { icon with name := base, variations := getVariations base svgs }
  else acc

/-- Model of the MCP server's `loadIcons`, with the directory listing
passed in as data: `none` models a `readdir` failure (missing or
unreadable directory), `some files` a successful listing. -/
def loadIcons (listing : Option (List (List Char))) : List MIcon :=
  match listing with
  | none => getFallbackIcons
  | some files =>
      let svgs := files.filter (fun f => ((".svg").data).isSuffixOf f)
      let icons := svgs.map (mcpMkIcon svgs)
      icons.foldl (mcpDedupStep svgs) []

/-- Model of the MCP server's `searchIcons(query, category, limit)`. The
JavaScript defaults are `category = null` (here `none`) and `limit = 50`. -/
def searchIcons (icons : List MIcon) (query : List Char)
    (category : Option (List Char)) (limit : Nat) : List MIcon :=
  let f1 : List MIcon := match category with
    | some c => if c ≠ [] ∧ c ≠ ("all").data
                then icons.filter (fun i => decide (i.category = c))
                else icons
    | none => icons
  let f2 := if query ≠ [] ∧ jsTrim query ≠ [] then
      f1.filter (fun i =>
        inclL (lowerL query) (lowerL i.name) ||
        inclL (lowerL query) (lowerL i.displayName) ||
        inclL (lowerL query) (lowerL i.category))
    else f1
  f2.take limit

/-- `searchIcons` at its JavaScript default arguments. -/
def searchIconsDefault (icons : List MIcon) (query : List Char) : List MIcon :=
  searchIcons icons query none 50

/-- The icon lookup inside the MCP server's `generateLinkedInPost`:
`selectedIcons.map(name => this.icons.find(...)).filter(Boolean)` —
missing names yield `undefined` and are filtered out. -/
def iconObjects (icons : List MIcon) (names : List (List Char)) : List MIcon :=
  (names.map (fun n => icons.find? (fun i => decide (i.name = n)))).reduceOption

/-- An icon record of the web icons loader (`IconsLoader`). -/
structure LIcon where
  name : List Char
  displayName : List Char
  category : List Char
  tags : List (List Char)
  variations : List (List Char)
  path : List Char
  paths : List (List Char × List Char)
  searchable : List Char
deriving DecidableEq, Repr

/-- Model of the loader's `filterByCategory(category)`: return all icons
for `all` or a missing category, else filter by exact category equality. -/
def filterByCategory (icons : List LIcon) (category : List Char) : List LIcon :=
  if category = ("all").data ∨ category = [] then icons
  else icons.filter (fun i => decide (i.category = category))

/-- Model of the loader's `getIconsByNames(names)`. -/
def getIconsByNames (icons : List LIcon) (names : List (List Char)) : List LIcon :=
  icons.filter (fun i => decide (i.name ∈ names))

/-- The mutable state of the MCP server object: its icon catalog. -/
structure ServerState where
  icons : List MIcon
deriving DecidableEq, Repr

/-- The mutable state of the web icons loader object: its icon catalog. -/
structure LoaderState where
  icons : List LIcon
deriving DecidableEq, Repr

/-- The MCP server's `searchIcons` as a state transformer: the method body
only reads `this.icons` (`filter` and `slice` allocate new arrays), so the
state after the call is returned unchanged. -/
def searchIconsM (st : ServerState) (query : List Char)
    (category : Option (List Char)) (limit : Nat) : List MIcon × ServerState :=
  (searchIcons st.icons query category limit, st)

/-- The loader's `filterByCategory` as a state transformer: the method
body only reads `this.icons`. -/
def filterByCategoryM (st : LoaderState) (category : List Char) : List LIcon × LoaderState :=
  (filterByCategory st.icons category, st)

theorem categorizeAux_eq_find (nl : List Char) (table : List (List Char × List (List Char))) :
    categorizeAux nl table =
      ((table.find? (fun p => p.2.any (fun k => kwMatch nl k))).map Prod.fst).getD
        (("other").data) := by
  induction table with
  | nil => rfl
  | cons p rest ih =>
      by_cases h : (p.2.any (fun k => kwMatch nl k)) = true
      · have h2 : (fun q : List Char × List (List Char) =>
            q.2.any (fun k => kwMatch nl k)) p = true := h
        rw [categorizeAux, if_pos h, List.find?_cons_of_pos rest h2]
        rfl
      · have h2 : ¬ ((fun q : List Char × List (List Char) =>
            q.2.any (fun k => kwMatch nl k)) p = true) := h
        rw [categorizeAux, if_neg h, List.find?_cons_of_neg rest h2, ih]

/-- C1: `categorize` lowercases the base name and returns the first
category, in the declaration order of the keyword table, having a keyword
`k` with `k` a substring of the name or the name a substring of `k`;
with no match it returns `other`. In particular `openai ↦ ai` and
`unknownxyz123 ↦ other`. -/
theorem categorize_first_matching_category :
    (∀ b : List Char,
      categorizeIcon b =
        ((categoryKeywords.find? (fun p =>
            p.2.any (fun k =>
              inclL (lowerL k) (lowerL b) || inclL (lowerL b) (lowerL k)))).map
          Prod.fst).getD (("other").data)) ∧
    categorizeIcon (("openai").data) = ("ai").data ∧
    categorizeIcon (("unknownxyz123").data) = ("other").data := by
  refine ⟨fun b => ?_, by decide, by decide⟩
  simpa [categorizeIcon, kwMatch] using categorizeAux_eq_find (lowerL b) categoryKeywords

theorem isSuffixOf_append_self (b t : List Char) : t.isSuffixOf (b ++ t) = true := by
  rw [List.isSuffixOf_iff_suffix]
  exact List.suffix_append b t

theorem not_isSuffixOf_append (b s t : List Char) (h1 : ¬ s <:+ t) (h2 : ¬ t <:+ s) :
    ¬ (s.isSuffixOf (b ++ t) = true) := by
  intro hc
  rw [List.isSuffixOf_iff_suffix] at hc
  rcases List.suffix_or_suffix_of_suffix hc (List.suffix_append b t) with h3 | h3
  · exact h1 h3
  · exact h2 h3

theorem dropSuffixN_append (b t : List Char) : dropSuffixN (b ++ t) t.length = b := by
  simp only [dropSuffixN, List.length_append, Nat.add_sub_cancel]
  exact List.take_left b t

theorem parse_color_suffix (b : List Char) :
    getBaseName (b ++ ("-color").data) = b ∧
    getVariation (b ++ ("-color").data) = ("color").data := by
  have hy := isSuffixOf_append_self b (("-color").data)
  have hd : dropSuffixN (b ++ ("-color").data) 6 = b := dropSuffixN_append b _
  rw [getBaseName, getVariation, if_pos hy, if_pos hy]
  exact ⟨hd, rfl⟩

theorem parse_text_suffix (b : List Char) :
    getBaseName (b ++ ("-text").data) = b ∧
    getVariation (b ++ ("-text").data) = ("text").data := by
  have n1 := not_isSuffixOf_append b (("-color").data) (("-text").data)
    (by decide) (by decide)
  have hy := isSuffixOf_append_self b (("-text").data)
  have hd : dropSuffixN (b ++ ("-text").data) 5 = b := dropSuffixN_append b _
  rw [getBaseName, getVariation, if_neg n1, if_neg n1, if_pos hy, if_pos hy]
  exact ⟨hd, rfl⟩

theorem parse_brand_suffix (b : List Char) :
    getBaseName (b ++ ("-brand").data) = b ∧
    getVariation (b ++ ("-brand").data) = ("brand").data := by
  have n1 := not_isSuffixOf_append b (("-color").data) (("-brand").data)
    (by decide) (by decide)
  have n2 := not_isSuffixOf_append b (("-text").data) (("-brand").data)
    (by decide) (by decide)
  have hy := isSuffixOf_append_self b (("-brand").data)
  have hd : dropSuffixN (b ++ ("-brand").data) 6 = b := dropSuffixN_append b _
  rw [getBaseName, getVariation, if_neg n1, if_neg n1, if_neg n2, if_neg n2,
    if_pos hy, if_pos hy]
  exact ⟨hd, rfl⟩

theorem parse_mono_suffix (b : List Char) :
    getBaseName (b ++ ("-mono").data) = b ∧
    getVariation (b ++ ("-mono").data) = ("mono").data := by
  have n1 := not_isSuffixOf_append b (("-color").data) (("-mono").data)
    (by decide) (by decide)
  have n2 := not_isSuffixOf_append b (("-text").data) (("-mono").data)
    (by decide) (by decide)
  have n3 := not_isSuffixOf_append b (("-brand").data) (("-mono").data)
    (by decide) (by decide)
  have hy := isSuffixOf_append_self b (("-mono").data)
  have hd : dropSuffixN (b ++ ("-mono").data) 5 = b := dropSuffixN_append b _
  rw [getBaseName, getVariation, if_neg n1, if_neg n1, if_neg n2, if_neg n2,
    if_neg n3, if_neg n3, if_pos hy, if_pos hy]
  exact ⟨hd, rfl⟩

/-- C2: a stem ending in exactly one of `-color`, `-text`, `-brand`,
`-mono` parses to that variation with the suffix removed from the base
name; any other stem parses to variation `default` with the base name
equal to the stem, and matching is anchored (`adobe-brandx` is
`default`). -/
theorem parseIdentity_anchored :
    (∀ b, getBaseName (b ++ ("-color").data) = b ∧
          getVariation (b ++ ("-color").data) = ("color").data) ∧
    (∀ b, getBaseName (b ++ ("-text").data) = b ∧
          getVariation (b ++ ("-text").data) = ("text").data) ∧
    (∀ b, getBaseName (b ++ ("-brand").data) = b ∧
          getVariation (b ++ ("-brand").data) = ("brand").data) ∧
    (∀ b, getBaseName (b ++ ("-mono").data) = b ∧
          getVariation (b ++ ("-mono").data) = ("mono").data) ∧
    (∀ s, ¬ ((("-color").data).isSuffixOf s = true) →
          ¬ ((("-text").data).isSuffixOf s = true) →
          ¬ ((("-brand").data).isSuffixOf s = true) →
          ¬ ((("-mono").data).isSuffixOf s = true) →
          getBaseName s = s ∧ getVariation s = ("default").data) ∧
    getBaseName (("adobe-brandx").data) = ("adobe-brandx").data ∧
    getVariation (("adobe-brandx").data) = ("default").data := by
  refine ⟨parse_color_suffix, parse_text_suffix, parse_brand_suffix,
    parse_mono_suffix, ?_, by decide, by decide⟩
  intro s h1 h2 h3 h4
  rw [getBaseName, getVariation, if_neg h1, if_neg h1, if_neg h2, if_neg h2,
    if_neg h3, if_neg h3, if_neg h4, if_neg h4]
  exact ⟨rfl, rfl⟩

/-- Witness for C2 at concrete inputs `x-mono` and `abc`. -/
theorem parseIdentity_anchored_witness :
    (getBaseName (("x-mono").data) = ("x").data ∧
     getVariation (("x-mono").data) = ("mono").data) ∧
    getBaseName (("abc").data) = ("abc").data ∧
    getVariation (("abc").data) = ("default").data := by
  have happ : ("x").data ++ ("-mono").data = ("x-mono").data := by decide
  have h1 := parseIdentity_anchored.2.2.2.1 (("x").data)
  rw [happ] at h1
  have h2 := parseIdentity_anchored.2.2.2.2.1 (("abc").data)
    (by decide) (by decide) (by decide) (by decide)
  exact ⟨h1, h2⟩

/-- The category-filter predicate actually applied by `searchIcons`:
keep everything unless a non-empty category other than `all` is given. -/
def catKeep (c : Option (List Char)) (i : MIcon) : Bool :=
  match c with
  | none => true
  | some cs => if cs ≠ [] ∧ cs ≠ ("all").data then decide (i.category = cs) else true

/-- The query-filter predicate actually applied by `searchIcons`: keep
everything when the query is empty after trimming, else require the
lowercased query to occur in name, displayName or category. -/
def queryKeep (q : List Char) (i : MIcon) : Bool :=
  if q ≠ [] ∧ jsTrim q ≠ [] then
    inclL (lowerL q) (lowerL i.name) || inclL (lowerL q) (lowerL i.displayName) ||
    inclL (lowerL q) (lowerL i.category)
  else true

theorem searchIcons_eq_filter_take (icons : List MIcon) (q : List Char)
    (c : Option (List Char)) (l : Nat) :
    searchIcons icons q c l =
      (icons.filter (fun i => catKeep c i && queryKeep q i)).take l := by
  have hq2 : ∀ (xs : List MIcon),
      (if q ≠ [] ∧ jsTrim q ≠ [] then
        xs.filter (fun i =>
          inclL (lowerL q) (lowerL i.name) ||
          inclL (lowerL q) (lowerL i.displayName) ||
          inclL (lowerL q) (lowerL i.category))
       else xs) = xs.filter (fun i => queryKeep q i) := by
    intro xs
    by_cases hq : q ≠ [] ∧ jsTrim q ≠ []
    · rw [if_pos hq]
      exact List.filter_congr (fun x _ => by simp [queryKeep, hq])
    · rw [if_neg hq]
      exact (List.filter_eq_self.mpr (fun x _ => by simp [queryKeep, hq])).symm
  cases c with
  | none =>
      simp only [searchIcons]
      rw [hq2 icons]
      exact congrArg (List.take l)
        (List.filter_congr (fun x _ => by simp [catKeep]))
  | some cs =>
      simp only [searchIcons]
      by_cases hc : cs ≠ [] ∧ cs ≠ ("all").data
      · rw [if_pos hc,
          hq2 (icons.filter (fun i => decide (i.category = cs))),
          List.filter_filter]
        exact congrArg (List.take l)
          (List.filter_congr (fun x _ => by simp [catKeep, hc, Bool.and_comm]))
      · rw [if_neg hc, hq2 icons]
        exact congrArg (List.take l)
          (List.filter_congr (fun x _ => by simp [catKeep, hc]))

/-- The search filter predicate as claim C4 words it, over the MCP
server's icon records: the case-folded query is a substring of the name,
displayName, or category (these records carry no tags, so the claim's tag
clause is vacuous on them). -/
def specSearchMatch (q : List Char) (i : MIcon) : Bool :=
  inclL (lowerL q) (lowerL i.name) || inclL (lowerL q) (lowerL i.displayName) ||
  inclL (lowerL q) (lowerL i.category)

/-- A concrete catalog entry used to refute claim C4 as stated. -/
def ghIcon : MIcon :=
  { name := ("github").data, category := ("dev").data,
    filename := ("github.svg").data, displayName := ("GitHub").data,
    variations := [("default").data] }

/-- C4 counterexample: the whitespace-only query a single space is a
non-empty query, yet `searchIcons` keeps an entry that the claim's filter
predicate excludes — the code filters only when the query is non-empty
after trimming. -/
theorem searchIcons_claim_counterexample :
    (" ").data ≠ [] ∧
    searchIcons [ghIcon] ((" ").data) (some (("all").data)) 50 = [ghIcon] ∧
    specSearchMatch ((" ").data) ghIcon = false := by
  refine ⟨by decide, by decide, by decide⟩

/-- C4 (amended): `searchIcons` keeps only entries passing the exact
category filter (when a non-empty category other than `all` is given) and,
when the query is non-empty after trimming whitespace, the
case-insensitive substring test on name, displayName or category (entries
carry no tags), truncating to `limit`, which defaults to 50; in
particular a `git` and `dev` search keeps exactly the `dev` entries
matching `git`, truncated to the limit. -/
theorem searchIcons_filters_and_truncates :
    (∀ icons q c l, searchIcons icons q c l =
      (icons.filter (fun i => catKeep c i && queryKeep q i)).take l) ∧
    (∀ icons q, searchIconsDefault icons q =
      (icons.filter (fun i => queryKeep q i)).take 50) ∧
    (∀ icons, searchIcons icons (("git").data) (some (("dev").data)) 10 =
      (icons.filter (fun i =>
        decide (i.category = ("dev").data) &&
        specSearchMatch (("git").data) i)).take 10) := by
  refine ⟨searchIcons_eq_filter_take, ?_, ?_⟩
  · intro icons q
    rw [searchIconsDefault, searchIcons_eq_filter_take]
    exact congrArg (List.take 50)
      (List.filter_congr (fun x _ => by simp [catKeep]))
  · intro icons
    rw [searchIcons_eq_filter_take]
    refine congrArg (List.take 10) (List.filter_congr (fun x _ => ?_))
    have h1 : (("git").data ≠ ([] : List Char)) ∧ jsTrim (("git").data) ≠ [] := by
      decide
    have h2 : (("dev").data ≠ ([] : List Char)) ∧ ("dev").data ≠ ("all").data := by
      decide
    simp only [catKeep, queryKeep, specSearchMatch]
    rw [if_pos h2, if_pos h1]

/-- C5: `searchIcons` returns a subsequence of the catalog (surviving
entries keep the catalog's order, no relevance re-sort), and with an
empty query and category `all` it returns the catalog truncated to the
limit, unfiltered. -/
theorem search_preserves_catalog_order :
    (∀ icons q c l, List.Sublist (searchIcons icons q c l) icons) ∧
    (∀ icons l, searchIcons icons [] (some (("all").data)) l = icons.take l) := by
  constructor
  · intro icons q c l
    rw [searchIcons_eq_filter_take]
    exact List.Sublist.trans (List.take_sublist _ _) (List.filter_sublist _)
  · intro icons l
    rw [searchIcons_eq_filter_take]
    rw [List.filter_eq_self.mpr (fun x _ => by simp [catKeep, queryKeep])]

/-- C7: a failed directory read (`none` listing) falls back to the small
hardcoded 12-entry catalog rather than erroring, while a successful
listing containing no `.svg` file yields the empty catalog — not an
error, and not the fallback. -/
theorem loadIcons_fallback_and_empty :
    loadIcons none = getFallbackIcons ∧
    getFallbackIcons.length = 12 ∧
    getFallbackIcons ≠ [] ∧
    (∀ files, files.filter (fun f => ((".svg").data).isSuffixOf f) = [] →
      loadIcons (some files) = [] ∧
      loadIcons (some files) ≠ getFallbackIcons) := by
  refine ⟨rfl, by decide, by decide, ?_⟩
  intro files h
  have he : loadIcons (some files) = [] := by
    have hrfl : loadIcons (some files) =
        ((files.filter (fun f => ((".svg").data).isSuffixOf f)).map
          (mcpMkIcon (files.filter (fun f => ((".svg").data).isSuffixOf f)))).foldl
          (mcpDedupStep (files.filter (fun f => ((".svg").data).isSuffixOf f))) [] := rfl
    rw [hrfl, h]
    rfl
  refine ⟨he, ?_⟩
  rw [he]
  intro hc
  exact (by decide : getFallbackIcons ≠ []) hc.symm

/-- Witness for C7: a listing with one non-svg file yields the empty
catalog and not the fallback. -/
theorem loadIcons_fallback_and_empty_witness :
    loadIcons (some [("readme.md").data]) = [] ∧
    loadIcons (some [("readme.md").data]) ≠ getFallbackIcons :=
  loadIcons_fallback_and_empty.2.2.2 [("readme.md").data] (by decide)

theorem iconObjects_eq_filterMap (icons : List MIcon) (names : List (List Char)) :
    iconObjects icons names =
      names.filterMap (fun n => icons.find? (fun i => decide (i.name = n))) := by
  induction names with
  | nil => rfl
  | cons n tl ih =>
      show (icons.find? (fun i => decide (i.name = n)) ::
        tl.map (fun n => icons.find? (fun i => decide (i.name = n)))).reduceOption = _
      rw [List.filterMap_cons]
      cases hf : icons.find? (fun i => decide (i.name = n)) with
      | none => simp [List.reduceOption, List.filterMap_cons, hf, ih]
      | some e => simp [List.reduceOption, List.filterMap_cons, hf, ih]

theorem filterMap_find_drop_missing (icons : List MIcon) (names : List (List Char)) :
    names.filterMap (fun n => icons.find? (fun i => decide (i.name = n))) =
      (names.filter (fun n => icons.any (fun i => decide (i.name = n)))).filterMap
        (fun n => icons.find? (fun i => decide (i.name = n))) := by
  induction names with
  | nil => rfl
  | cons n tl ih =>
      by_cases h : icons.any (fun i => decide (i.name = n)) = true
      · have hb : (fun m => icons.any (fun i => decide (i.name = m))) n = true := h
        rw [@List.filter_cons_of_pos (List Char)
            (fun m => icons.any (fun i => decide (i.name = m))) n tl hb,
          List.filterMap_cons, List.filterMap_cons]
        cases hf : icons.find? (fun i => decide (i.name = n)) with
        | none => simp [ih]
        | some e => simp [ih]
      · have hb : ¬ ((fun m => icons.any (fun i => decide (i.name = m))) n = true) := h
        have hn : icons.find? (fun i => decide (i.name = n)) = none :=
          List.find?_eq_none.mpr (fun x hx hp =>
            h (List.any_eq_true.mpr ⟨x, hx, hp⟩))
        rw [@List.filter_cons_of_neg (List Char)
            (fun m => icons.any (fun i => decide (i.name = m))) n tl hb,
          List.filterMap_cons, hn, ih]

/-- C9: the post generator's lookup and the loader's `getIconsByNames`
silently drop requested names that are missing from the catalog — the
result is unchanged when the missing names are removed up front — and
every returned record is a catalog entry whose name was requested. -/
theorem post_generator_drops_missing_names :
    (∀ icons names, iconObjects icons names =
      iconObjects icons (names.filter
        (fun n => icons.any (fun i => decide (i.name = n))))) ∧
    (∀ icons names e, e ∈ iconObjects icons names →
      e ∈ icons ∧ e.name ∈ names) ∧
    (∀ icons names, getIconsByNames icons names =
      getIconsByNames icons (names.filter
        (fun n => icons.any (fun i => decide (i.name = n))))) ∧
    (∀ icons names e, e ∈ getIconsByNames icons names →
      e ∈ icons ∧ e.name ∈ names) := by
  refine ⟨?_, ?_, ?_, ?_⟩
  · intro icons names
    rw [iconObjects_eq_filterMap, iconObjects_eq_filterMap]
    exact filterMap_find_drop_missing icons names
  · intro icons names e he
    rw [iconObjects_eq_filterMap] at he
    rcases List.mem_filterMap.mp he with ⟨n, hn, hf⟩
    refine ⟨List.mem_of_find?_eq_some hf, ?_⟩
    have hp1 : (fun i : MIcon => decide (i.name = n)) e = true :=
      @List.find?_some MIcon (fun i => decide (i.name = n)) e icons hf
    have hp : e.name = n := of_decide_eq_true hp1
    rw [hp]
    exact hn
  · intro icons names
    unfold getIconsByNames
    apply List.filter_congr
    intro x hx
    by_cases h : x.name ∈ names
    · have h2 : x.name ∈ names.filter
          (fun n => icons.any (fun i => decide (i.name = n))) :=
        List.mem_filter.mpr ⟨h, List.any_eq_true.mpr ⟨x, hx, by simp⟩⟩
      simp [h, h2]
    · have h2 : x.name ∉ names.filter
          (fun n => icons.any (fun i => decide (i.name = n))) :=
        fun hc => h (List.mem_filter.mp hc).1
      simp [h, h2]
  · intro icons names e he
    unfold getIconsByNames at he
    have h2 := List.mem_filter.mp he
    exact ⟨h2.1, of_decide_eq_true h2.2⟩

/-- A concrete MCP-server catalog entry used in witnesses. -/
def figmaIcon : MIcon :=
  { name := ("figma").data, category := ("design").data,
    filename := ("figma.svg").data, displayName := ("Figma").data,
    variations := [("default").data] }

/-- A concrete loader catalog entry used in witnesses. -/
def reactIcon : LIcon :=
  { name := ("react").data, displayName := ("React").data,
    category := ("dev").data, tags := [("react").data],
    variations := [("default").data],
    path := ("lobe-icons/packages/static-svg/icons/react.svg").data,
    paths := [(("default").data,
      ("lobe-icons/packages/static-svg/icons/react.svg").data)],
    searchable := ("react react dev").data }

/-- Witness for C9 at a one-entry catalog with one present and one
missing requested name. -/
theorem post_generator_drops_missing_names_witness :
    (figmaIcon ∈ [figmaIcon] ∧
      figmaIcon.name ∈ [("figma").data, ("missing").data]) ∧
    (reactIcon ∈ [reactIcon] ∧
      reactIcon.name ∈ [("react").data, ("missing").data]) := by
  constructor
  · exact post_generator_drops_missing_names.2.1 [figmaIcon]
      [("figma").data, ("missing").data] figmaIcon (by decide)
  · exact post_generator_drops_missing_names.2.2.2 [reactIcon]
      [("react").data, ("missing").data] reactIcon (by decide)

/-- C10: the search and category-filter calls leave the catalog state
unchanged (their method bodies only read `this.icons`), and every record
they return is an entry of the unchanged catalog. -/
theorem search_and_filter_preserve_state :
    (∀ st q c l, (searchIconsM st q c l).2 = st) ∧
    (∀ st q c l e, e ∈ (searchIconsM st q c l).1 → e ∈ st.icons) ∧
    (∀ st c, (filterByCategoryM st c).2 = st) ∧
    (∀ st c e, e ∈ (filterByCategoryM st c).1 → e ∈ st.icons) := by
  refine ⟨fun st q c l => rfl, ?_, fun st c => rfl, ?_⟩
  · intro st q c l e he
    have hs : List.Sublist (searchIcons st.icons q c l) st.icons := by
      rw [searchIcons_eq_filter_take]
      exact List.Sublist.trans (List.take_sublist _ _) (List.filter_sublist _)
    exact hs.subset he
  · intro st c e he
    unfold filterByCategoryM filterByCategory at he
    by_cases h : c = ("all").data ∨ c = []
    · rw [if_pos h] at he
      exact he
    · rw [if_neg h] at he
      exact (List.mem_filter.mp he).1

/-- Witness for C10 at concrete one-entry states. -/
theorem search_and_filter_preserve_state_witness :
    (searchIconsM ⟨[figmaIcon]⟩ [] none 50).2 = ⟨[figmaIcon]⟩ ∧
    figmaIcon ∈ (⟨[figmaIcon]⟩ : ServerState).icons ∧
    (filterByCategoryM ⟨[reactIcon]⟩ (("all").data)).2 = ⟨[reactIcon]⟩ ∧
    reactIcon ∈ (⟨[reactIcon]⟩ : LoaderState).icons := by
  refine ⟨search_and_filter_preserve_state.1 ⟨[figmaIcon]⟩ [] none 50, ?_,
    search_and_filter_preserve_state.2.2.1 ⟨[reactIcon]⟩ (("all").data), ?_⟩
  · exact search_and_filter_preserve_state.2.1 ⟨[figmaIcon]⟩ [] none 50
      figmaIcon (by decide)
  · exact search_and_filter_preserve_state.2.2.2 ⟨[reactIcon]⟩ (("all").data)
      reactIcon (by decide)

/-- Folding a run of same-named icons into one entry. -/
def bumpAll (e : Entry) (l : List SIcon) : Entry := l.foldl bump e

theorem bumpAll_name (l : List SIcon) : ∀ e : Entry, (bumpAll e l).name = e.name := by
  induction l with
  | nil => intro e; rfl
  | cons i tl ih => intro e; rw [bumpAll, List.foldl_cons]; exact ih (bump e i)

theorem bumpAll_variations (l : List SIcon) :
    ∀ e : Entry, (bumpAll e l).variations =
      e.variations ++ l.map (fun i => i.variation) := by
  induction l with
  | nil => intro e; simp [bumpAll]
  | cons i tl ih =>
      intro e
      rw [bumpAll, List.foldl_cons]
      show (bumpAll (bump e i) tl).variations = _
      rw [ih (bump e i)]
      simp [bump]

theorem bumpAll_paths (l : List SIcon) :
    ∀ e : Entry, (bumpAll e l).paths =
      l.foldl (fun acc i => upsert acc i.variation i.path) e.paths := by
  induction l with
  | nil => intro e; simp [bumpAll]
  | cons i tl ih =>
      intro e
      rw [bumpAll, List.foldl_cons, List.foldl_cons]
      show (bumpAll (bump e i) tl).paths = _
      rw [ih (bump e i)]
      rfl

theorem findE_addIcon (cat : List Entry) (i : SIcon) (n : List Char) :
    findE n (addIcon cat i) =
      if i.name = n then
        match findE n cat with
        | some e => some (bump e i)
        | none => some (mkEntry i)
      else findE n cat := by
  induction cat with
  | nil =>
      by_cases h : i.name = n
      · simp [addIcon, findE, mkEntry, h]
      · simp [addIcon, findE, mkEntry, h]
  | cons e rest ih =>
      by_cases he : e.name = i.name
      · rw [addIcon, if_pos he]
        by_cases h : i.name = n
        · have hen : e.name = n := he.trans h
          simp [findE, bump, hen, h]
        · have hen : ¬ (e.name = n) := fun hc => h (he ▸ hc)
          simp [findE, bump, hen, h]
      · rw [addIcon, if_neg he]
        by_cases hen : e.name = n
        · have h : ¬ (i.name = n) := fun hc => he (by rw [hen, hc])
          simp [findE, hen, h]
        · simp [findE, hen, ih]

theorem filter_name_cons_pos {i : SIcon} {n : List Char} (tl : List SIcon)
    (h : i.name = n) :
    (i :: tl).filter (fun j => decide (j.name = n)) =
      i :: tl.filter (fun j => decide (j.name = n)) := by
  simp [List.filter_cons, h]

theorem filter_name_cons_neg {i : SIcon} {n : List Char} (tl : List SIcon)
    (h : ¬ (i.name = n)) :
    (i :: tl).filter (fun j => decide (j.name = n)) =
      tl.filter (fun j => decide (j.name = n)) := by
  simp [List.filter_cons, h]

theorem findE_foldl (icons : List SIcon) :
    ∀ (cat : List Entry) (n : List Char),
      findE n (icons.foldl addIcon cat) =
        match findE n cat with
        | some e => some (bumpAll e (icons.filter (fun i => decide (i.name = n))))
        | none =>
            match icons.filter (fun i => decide (i.name = n)) with
            | [] => none
            | i :: rest => some (bumpAll (mkEntry i) rest) := by
  induction icons with
  | nil =>
      intro cat n
      cases h : findE n cat <;> simp [bumpAll, h]
  | cons i tl ih =>
      intro cat n
      rw [List.foldl_cons, ih (addIcon cat i) n, findE_addIcon]
      by_cases h : i.name = n
      · rw [if_pos h, filter_name_cons_pos tl h]
        cases hcat : findE n cat with
        | some e => simp [bumpAll, List.foldl_cons]
        | none => simp [bumpAll, List.foldl_cons]
      · rw [if_neg h, filter_name_cons_neg tl h]

theorem findE_groupIcons (icons : List SIcon) (n : List Char) :
    findE n (groupIcons icons) =
      match icons.filter (fun i => decide (i.name = n)) with
      | [] => none
      | i :: rest => some (bumpAll (mkEntry i) rest) := by
  have h := findE_foldl icons [] n
  rw [groupIcons]
  rw [h]
  rfl

theorem map_name_addIcon (cat : List Entry) (i : SIcon) :
    (addIcon cat i).map (fun e => e.name) =
      if i.name ∈ cat.map (fun e => e.name) then cat.map (fun e => e.name)
      else cat.map (fun e => e.name) ++ [i.name] := by
  induction cat with
  | nil => simp [addIcon, mkEntry]
  | cons e rest ih =>
      by_cases he : e.name = i.name
      · rw [addIcon, if_pos he]
        simp [bump, he]
      · rw [addIcon, if_neg he]
        have hne : ¬ (i.name = e.name) := fun hc => he hc.symm
        by_cases hm : i.name ∈ rest.map (fun e => e.name)
        · simp [List.mem_cons, hne, hm, ih]
        · simp [List.mem_cons, hne, hm, ih]

theorem nodup_names_foldl (icons : List SIcon) :
    ∀ cat : List Entry, (cat.map (fun e => e.name)).Nodup →
      ((icons.foldl addIcon cat).map (fun e => e.name)).Nodup := by
  induction icons with
  | nil => intro cat h; exact h
  | cons i tl ih =>
      intro cat h
      rw [List.foldl_cons]
      apply ih
      rw [map_name_addIcon]
      by_cases hm : i.name ∈ cat.map (fun e => e.name)
      · rw [if_pos hm]; exact h
      · rw [if_neg hm]
        simp [List.nodup_append, h, hm]

theorem mem_names_foldl (icons : List SIcon) :
    ∀ (cat : List Entry) (n : List Char),
      (n ∈ (icons.foldl addIcon cat).map (fun e => e.name)) ↔
        (n ∈ cat.map (fun e => e.name) ∨ n ∈ icons.map (fun i => i.name)) := by
  induction icons with
  | nil => intro cat n; simp
  | cons i tl ih =>
      intro cat n
      rw [List.foldl_cons, ih, map_name_addIcon]
      by_cases hm : i.name ∈ cat.map (fun e => e.name)
      · rw [if_pos hm]
        simp only [List.map_cons, List.mem_cons]
        constructor
        · rintro (h | h)
          · exact Or.inl h
          · exact Or.inr (Or.inr h)
        · rintro (h | h | h)
          · exact Or.inl h
          · exact Or.inl (h ▸ hm)
          · exact Or.inr h
      · rw [if_neg hm]
        simp only [List.map_cons, List.mem_cons, List.mem_append,
          List.mem_singleton]
        tauto

theorem findE_of_mem :
    ∀ (cat : List Entry) (e : Entry),
      (cat.map (fun x => x.name)).Nodup → e ∈ cat →
      findE e.name cat = some e := by
  intro cat
  induction cat with
  | nil => intro e _ hm; cases hm
  | cons x rest ih =>
      intro e h hm
      have hnd : (∀ y ∈ rest, ¬ y.name = x.name) ∧
          (rest.map (fun y => y.name)).Nodup := by simpa using h
      rw [findE]
      by_cases hx : x.name = e.name
      · rw [if_pos hx]
        cases List.mem_cons.mp hm with
        | inl h1 => rw [h1]
        | inr h1 =>
            exfalso
            exact hnd.1 e h1 hx.symm
      · rw [if_neg hx]
        cases List.mem_cons.mp hm with
        | inl h1 => exact absurd (by rw [h1]) hx
        | inr h1 => exact ih e hnd.2 h1

theorem filter_map_mkIcon (files : List (List Char)) (n : List Char) :
    (files.map mkIcon).filter (fun i => decide (i.name = n)) =
      (files.filter (fun f => decide (baseNameOfFile f = n))).map mkIcon := by
  rw [List.filter_map]
  rfl

theorem map_name_map_mkIcon (files : List (List Char)) :
    (files.map mkIcon).map (fun i => i.name) = files.map baseNameOfFile := by
  rw [List.map_map]
  rfl

/-- C3: for every input file list, the built catalog has exactly one
entry per distinct base name — entry names are duplicate-free and are
exactly the base names of the inputs, and the entry count equals the
number of distinct base names — and each entry accumulates, in file
order, the variations and the path map of all files sharing its base
name. -/
theorem buildCatalog_one_entry_per_basename (files : List (List Char)) :
    (((buildCatalog files).map (fun e => e.name)).Nodup) ∧
    (∀ n, n ∈ (buildCatalog files).map (fun e => e.name) ↔
      n ∈ files.map baseNameOfFile) ∧
    ((buildCatalog files).length = (files.map baseNameOfFile).dedup.length) ∧
    (∀ e, e ∈ buildCatalog files →
      e.variations =
        (files.filter (fun f => decide (baseNameOfFile f = e.name))).map
          variationOfFile ∧
      e.paths =
        pathsFold (files.filter
          (fun f => decide (baseNameOfFile f = e.name)))) := by
  have hnodup : ((buildCatalog files).map (fun e => e.name)).Nodup := by
    have h1 := nodup_names_foldl (files.map mkIcon) [] (by simp)
    simpa [buildCatalog, groupIcons] using h1
  have hmem : ∀ n, n ∈ (buildCatalog files).map (fun e => e.name) ↔
      n ∈ files.map baseNameOfFile := by
    intro n
    have h2 := mem_names_foldl (files.map mkIcon) [] n
    rw [map_name_map_mkIcon] at h2
    simpa [buildCatalog, groupIcons] using h2
  have hcount : (buildCatalog files).length =
      (files.map baseNameOfFile).dedup.length := by
    have h1 : (buildCatalog files).length =
        ((buildCatalog files).map (fun e => e.name)).length :=
      (List.length_map _ _).symm
    rw [h1, ← List.toFinset_card_of_nodup hnodup, ← List.card_toFinset]
    congr 1
    apply Finset.ext
    intro a
    simp only [List.mem_toFinset]
    exact hmem a
  refine ⟨hnodup, hmem, hcount, ?_⟩
  intro e he
  have hfind : findE e.name (groupIcons (files.map mkIcon)) = some e :=
    findE_of_mem _ e hnodup he
  have hchar := findE_groupIcons (files.map mkIcon) e.name
  rw [hfind, filter_map_mkIcon files e.name] at hchar
  cases hmf : files.filter (fun f => decide (baseNameOfFile f = e.name)) with
  | nil =>
      rw [hmf] at hchar
      simp at hchar
  | cons f rest =>
      rw [hmf] at hchar
      simp only [List.map_cons] at hchar
      have he2 : e = bumpAll (mkEntry (mkIcon f)) (rest.map mkIcon) := by
        exact Option.some.inj hchar
      constructor
      · rw [he2, bumpAll_variations, List.map_map]
        rfl
      · rw [he2, bumpAll_paths, pathsFold, List.foldl_cons, List.foldl_map]
        rfl

/-- A default entry value used for safe indexing in witnesses. -/
def emptyEntry : Entry :=
  { name := [], fileName := [], variation := [], displayName := [],
    category := [], path := [], tags := [], variations := [], paths := [] }

/-- The aws example files of the specification. -/
def awsFiles : List (List Char) :=
  [("aws.svg").data, ("aws-color.svg").data, ("aws-text.svg").data]

/-- Witness for C3 at the aws example: one entry named `aws` whose
variations are exactly default, color and text. -/
theorem buildCatalog_one_entry_per_basename_witness :
    ((buildCatalog awsFiles).getD 0 emptyEntry).variations =
      (awsFiles.filter (fun f => decide (baseNameOfFile f =
        ((buildCatalog awsFiles).getD 0 emptyEntry).name))).map
        variationOfFile ∧
    (buildCatalog awsFiles).length = 1 ∧
    ((buildCatalog awsFiles).getD 0 emptyEntry).name = ("aws").data ∧
    ((buildCatalog awsFiles).getD 0 emptyEntry).variations =
      [("default").data, ("color").data, ("text").data] := by
  refine ⟨?_, by decide, by decide, by decide⟩
  exact ((buildCatalog_one_entry_per_basename awsFiles).2.2.2
    ((buildCatalog awsFiles).getD 0 emptyEntry) (by decide)).1

/-- The example directory listing of claim C8. -/
def exampleDirFiles : List (List Char) :=
  [("github.svg").data, ("github-color.svg").data, ("figma.svg").data]

/-- C8: scanning a directory holding exactly `github.svg`,
`github-color.svg` and `figma.svg` yields exactly two entries — `github`
with variations default and color, category `dev`, display name `GitHub`,
and `figma` with variation default, category `design`, display name
`Figma`. -/
theorem scan_example_catalog :
    (scanCatalog exampleDirFiles).length = 2 ∧
    (findE (("github").data) (scanCatalog exampleDirFiles)).map
        (fun e => (e.variations, e.category, e.displayName)) =
      some ([("default").data, ("color").data],
        ("dev").data, ("GitHub").data) ∧
    (findE (("figma").data) (scanCatalog exampleDirFiles)).map
        (fun e => (e.variations, e.category, e.displayName)) =
      some ([("default").data], ("design").data, ("Figma").data) := by
  exact ⟨by decide, by decide, by decide⟩
